import Mathlib

/-!
Verification of `can-paper`, a plotting/report toolkit consisting of two
Python scripts: `scripts/report_plot.py` and
`scripts/visualize_topology_comparison.py`.

The scripts are shallowly embedded here.  Numeric values (Python floats)
are modelled as rationals `ℚ`; this keeps every definition executable and
is faithful for the arithmetic the claims are about (the code only adds,
divides and compares).  JSON-ish inputs are modelled by small inductive
types carrying exactly the distinctions the code tests with `isinstance`.
Python's `np.random.normal` draws are modelled by an explicit noise
function passed as a parameter (one value per matrix entry).
-/

namespace CanPaper

/-! ## `report_plot._normalize_acc_history`

The Python function receives an arbitrary JSON-decoded object and
distinguishes: `None`, a plain `list` of numbers, a mapping (dict), and
anything else.  A dict's values, for the keys the code looks at, are
either a `list` of numbers or something that is not a list. -/

/-- A value stored under a key of an accuracy-history mapping: either a
list of numbers (Python `isinstance(values, list)` succeeds) or anything
else. -/
inductive HVal where
  | vlist (vs : List ℚ)
  | nonList
deriving Repr, DecidableEq

/-- An accuracy-history mapping: association list of keys to values, in
insertion order (Python dicts preserve insertion order; keys are unique,
and `get`/`find?` returns the first match either way). -/
structure HMap where
  entries : List (String × HVal)
deriving Repr, DecidableEq

/-- `dict.get(key)`: the value under `key`, if present. -/
def HMap.get (m : HMap) (key : String) : Option HVal :=
  (m.entries.find? (fun e => e.1 = key)).map (fun e => e.2)

/-- The possible shapes of the `acc_history` argument:
`None`, a flat list, a mapping, or anything else. -/
inductive AccHistory where
  | missing
  | flat (vs : List ℚ)
  | mapping (m : HMap)
  | other
deriving Repr, DecidableEq

/-- The recognized series of a mapping: for each key in
`['readout', 'proto']`, in that order, the key's value when it is a list
(source line `for key in ['readout', 'proto']: ... if isinstance(values, list)`). -/
def recognizedSeries (m : HMap) : List (String × List ℚ) :=
  (["readout", "proto"]).filterMap (fun key =>
    match m.get key with
    | some (HVal.vlist vs) => some (key, vs)
    | _ => none)

/-- `report_plot._normalize_acc_history`: normalizes an accuracy-history
object into named series plus an optional diagnostic note.  `float(v)` on
a number is the identity in this model. -/
def normalize_acc_history : AccHistory → Option (List (String × List ℚ)) × Option String
  | AccHistory.missing => (none, some "missing")
  | AccHistory.flat vs => (some [("readout", vs)], none)
  | AccHistory.mapping m =>
      let series := recognizedSeries m
      let series :=
        if series.isEmpty then
          match m.get "samples" with
          | some (HVal.vlist vs) => [("readout", vs)]
          | _ => []
        else series
      if series.isEmpty then
        (none, some ("unknown keys: " ++ String.intercalate ", " (m.entries.map (fun e => e.1))))
      else
        (some series, none)
  | AccHistory.other => (none, some "unsupported format")

/-! ## `report_plot._smooth`

`np.convolve(arr, kernel, mode='same')` with `kernel = np.ones(window)/window`.
Full discrete convolution has length `M + N - 1`; mode `'same'` keeps the
centred `max M N` entries, starting at offset `(min M N - 1) / 2`. -/

/-- Full discrete convolution of two sequences (out-of-range terms are 0). -/
def convolve_full (a b : List ℚ) : List ℚ :=
  (List.range (a.length + b.length - 1)).map (fun k =>
    ((List.range (k + 1)).map (fun i => a.getD i 0 * b.getD (k - i) 0)).sum)

/-- `np.convolve(a, b, mode='same')`: the centred slice of the full
convolution, of length `max M N`. -/
def convolve_same (a b : List ℚ) : List ℚ :=
  ((convolve_full a b).drop ((min a.length b.length - 1) / 2)).take (max a.length b.length)

/-- `report_plot._smooth`: boxcar-smooth `values` with a window of
`window` samples; short inputs and degenerate windows are returned
unchanged. -/
def smooth (values : List ℚ) (window : ℕ) : List ℚ :=
  if values.length < 3 ∨ window ≤ 1 then values
  else convolve_same values (List.replicate window (1 / (window : ℚ)))

/-! ## `report_plot._plot_history_series`

Modelled as the list of curves drawn on the axes: for each named series,
the raw polyline, and — when the series has at least 10 points — a dashed
smoothed overlay whose window is `min(25, max(3, len(values) // 8))`. -/

/-- A curve drawn by `_plot_history_series`: a raw series line or a
smoothed overlay. -/
inductive Curve where
  | line (label : String) (ys : List ℚ)
  | smoothedLine (label : String) (ys : List ℚ)
deriving Repr, DecidableEq

/-- The curves `_plot_history_series` draws for one `(label, values)`
item: nothing when `values` is empty, otherwise the raw line followed by
the smoothed overlay when `len(values) >= 10`. -/
def plotSeriesCurves (label : String) (values : List ℚ) : List Curve :=
  if values.isEmpty then []
  else
    Curve.line label values ::
      (if 10 ≤ values.length then
        [Curve.smoothedLine (label ++ " (smoothed)")
          (smooth values (min 25 (max 3 (values.length / 8))))]
      else [])

/-- All curves drawn by `_plot_history_series` over its `series` mapping,
in iteration order. -/
def plot_history_series (series : List (String × List ℚ)) : List Curve :=
  (series.map (fun e => plotSeriesCurves e.1 e.2)).flatten

/-! ## `report_plot.binned_stat` -/

/-- `np.min` of a list (the code only calls it on nonempty data). -/
def npMin (l : List ℚ) : ℚ := l.foldl min (l.headD 0)

/-- `np.max` of a list. -/
def npMax (l : List ℚ) : ℚ := l.foldl max (l.headD 0)

/-- `np.linspace(a, b, bins + 1)`: `bins + 1` evenly spaced points from
`a` to `b`. -/
def linspace (a b : ℚ) (bins : ℕ) : List ℚ :=
  (List.range (bins + 1)).map (fun i => a + (b - a) * (i : ℚ) / (bins : ℚ))

/-- `np.searchsorted(edges, v, side='right')` for sorted `edges`: the
number of entries `≤ v`. -/
def searchsortedRight (edges : List ℚ) (v : ℚ) : ℕ :=
  edges.countP (fun e => decide (e ≤ v))

/-- The bin index of value `v`: `searchsorted(..., side='right') - 1`,
clipped into `[0, bins - 1]` (`np.clip`). -/
def binIndex (edges : List ℚ) (bins : ℕ) (v : ℚ) : ℕ :=
  (min (max ((searchsortedRight edges v : ℤ) - 1) 0) ((bins : ℤ) - 1)).toNat

/-- `zip(x, y, values)`: triples truncated to the shortest input. -/
def bsSamples (x y values : List ℚ) : List (ℚ × ℚ × ℚ) :=
  x.zip (y.zip values)

/-- One iteration of the `binned_stat` accumulation loop: add the value
into `grid[yi, xi]` and bump `counts[yi, xi]`. -/
def bsStep (xEdges yEdges : List ℚ) (bins : ℕ)
    (gc : (ℕ → ℕ → ℚ) × (ℕ → ℕ → ℕ)) (s : ℚ × ℚ × ℚ) :
    (ℕ → ℕ → ℚ) × (ℕ → ℕ → ℕ) :=
  let xi := binIndex xEdges bins s.1
  let yi := binIndex yEdges bins s.2.1
  (fun a b => if a = yi ∧ b = xi then gc.1 a b + s.2.2 else gc.1 a b,
   fun a b => if a = yi ∧ b = xi then gc.2 a b + 1 else gc.2 a b)

/-- `report_plot.binned_stat`: the binned-average grid (indexed
`grid yi xi` like the source's `grid[yi, xi]`) together with the two edge
vectors.  `counts[counts == 0] = 1` before the division is modelled by
the clamped denominator. -/
def binned_stat (x y values : List ℚ) (bins : ℕ) :
    (ℕ → ℕ → ℚ) × List ℚ × List ℚ :=
  let xEdges := linspace (npMin x) (npMax x) bins
  let yEdges := linspace (npMin y) (npMax y) bins
  let gc := (bsSamples x y values).foldl (bsStep xEdges yEdges bins)
    (fun _ _ => 0, fun _ _ => 0)
  (fun yi xi => gc.1 yi xi / (if gc.2 yi xi = 0 then 1 else (gc.2 yi xi : ℚ)),
   xEdges, yEdges)

/-! ## `report_plot.plot_perturbation_sets`: similarity series rendering -/

/-- A float as rendered into the plotted array: NaN or an ordinary
number. -/
inductive PFloat where
  | nan
  | val (q : ℚ)
deriving Repr, DecidableEq

/-- The array built from `similarityByOffset.mean` (source:
`np.array([np.nan if v is None else float(v) for v in similarity])`);
JSON `null` decodes to `None`, modelled as `Option.none`. -/
def renderSimilarity (mean : List (Option ℚ)) : List PFloat :=
  mean.map (fun v =>
    match v with
    | none => PFloat.nan
    | some q => PFloat.val q)

/-! ## `report_plot._derive_label` and the perturbation-set assembly in `main`

POSIX `os.path.basename` / `os.path.dirname` are embedded on character
lists: `basename p = p[p.rfind('/') + 1 :]`; `dirname` keeps
`p[: p.rfind('/') + 1]` and strips trailing slashes unless the head is
empty or all slashes. -/

/-- `os.path.basename` (POSIX): the suffix after the last `'/'`. -/
def posixBasename (p : String) : String :=
  String.mk ((p.data.reverse.takeWhile (fun c => c ≠ '/')).reverse)

/-- `os.path.dirname` (POSIX): everything before the last `'/'`, with
trailing slashes stripped unless the head is empty or all slashes. -/
def posixDirname (p : String) : String :=
  let head := (p.data.reverse.dropWhile (fun c => c ≠ '/')).reverse
  if head.isEmpty ∨ head.all (fun c => c = '/') then String.mk head
  else String.mk ((head.reverse.dropWhile (fun c => c = '/')).reverse)

/-- `report_plot._derive_label`: a label from the path's parent directory
name, skipping a literal `perturb` directory level, with `fallback` for
missing paths and empty results (Python's falsy `or`). -/
def derive_label (path : Option String) (fallback : String) : String :=
  match path with
  | none => fallback
  | some p =>
      if p = "" then fallback
      else
        let parent := posixBasename (posixDirname p)
        if parent = "perturb" then
          let grand := posixBasename (posixDirname (posixDirname p))
          if grand = "" then fallback else grand
        else if parent = "" then fallback else parent

/-- Python's `a or b` on optional strings (an empty string is falsy). -/
def pyOr (a b : Option String) : Option String :=
  match a with
  | some s => if s = "" then b else some s
  | none => b

/-- The body of `main`'s perturbation-set loop at index `idx`: the
`(label, summary_path, trials_path)` triple, or nothing when both paths
are absent (`continue`). -/
def mainSetFor (summaries trials labels : List String) (idx : ℕ) :
    Option (String × Option String × Option String) :=
  let summaryPath := summaries.get? idx
  let trialsPath := trials.get? idx
  let label :=
    match labels.get? idx with
    | some l => l
    | none => derive_label (pyOr summaryPath trialsPath) ("set-" ++ toString (idx + 1))
  if summaryPath = none ∧ trialsPath = none then none
  else some (label, summaryPath, trialsPath)

/-- The full list of perturbation sets assembled by `main`:
`for idx in range(max(len(summaries), len(trials), len(labels), 1))`. -/
def assembleSets (summaries trials labels : List String) :
    List (String × Option String × Option String) :=
  (List.range (max (max summaries.length trials.length) (max labels.length 1))).filterMap
    (mainSetFor summaries trials labels)

/-! ## `visualize_topology_comparison.generate_topology` -/

/-- `np.repeat(np.arange(n_digits), n_neurons // n_digits)`: the
preferred digit of each neuron. -/
def neuron_preferences (n_neurons n_digits : ℕ) : List ℕ :=
  ((List.range n_digits).map (fun d => List.replicate (n_neurons / n_digits) d)).flatten

/-- The digit distance used for a topology: modular (wrap-around) for
`"Ring"`, absolute linear otherwise (`"Snake"`). -/
def digitDist (topology_type : String) (n_digits : ℕ) (di dj : ℕ) : ℕ :=
  let raw := ((di : ℤ) - (dj : ℤ)).natAbs
  if topology_type = "Ring" then min raw (n_digits - raw) else raw

/-- `visualize_topology_comparison.generate_topology`: the weight matrix
(as a function of the two neuron indices) and the preference vector.
`np.random.normal(0, 0.1)` draws are supplied by the `noise` parameter,
one per matrix entry. -/
def generate_topology (topology_type : String) (n_neurons n_digits : ℕ)
    (noise : ℕ → ℕ → ℚ) : (ℕ → ℕ → ℚ) × List ℕ :=
  let prefs := neuron_preferences n_neurons n_digits
  (fun i j =>
    let dist := digitDist topology_type n_digits (prefs.getD i 0) (prefs.getD j 0)
    if dist = 0 then 1 + noise i j
    else if dist = 1 then 1/2 + noise i j
    else 0,
   prefs)

/-! ## Theorems -/

/-- C2: a flat (plain list) numeric accuracy history normalizes to exactly
one series, named for the default channel `readout`, with the same values
in the same order, and no diagnostic. -/
theorem normalize_flat_single_readout (vs : List ℚ) :
    normalize_acc_history (AccHistory.flat vs) = (some [("readout", vs)], none) := rfl

/-- C3: a history mapping whose only key is `samples` (mapping to a list)
normalizes to exactly one derived series whose values equal the `samples`
list, and no diagnostic. -/
theorem normalize_samples_only (vs : List ℚ) :
    normalize_acc_history (AccHistory.mapping ⟨[("samples", HVal.vlist vs)]⟩) =
      (some [("readout", vs)], none) := rfl

/-- When neither `readout` nor `proto` maps to a list, the recognized
series are empty. -/
theorem recognizedSeries_eq_nil (m : HMap)
    (hr : ∀ vs, m.get "readout" ≠ some (HVal.vlist vs))
    (hp : ∀ vs, m.get "proto" ≠ some (HVal.vlist vs)) :
    recognizedSeries m = [] := by
  unfold recognizedSeries
  cases h1 : m.get "readout" with
  | some v =>
    cases v with
    | vlist vs => exact absurd h1 (hr vs)
    | nonList =>
      cases h2 : m.get "proto" with
      | some v2 =>
        cases v2 with
        | vlist vs => exact absurd h2 (hp vs)
        | nonList => simp [List.filterMap_cons, h1, h2]
      | none => simp [List.filterMap_cons, h1, h2]
  | none =>
    cases h2 : m.get "proto" with
    | some v2 =>
      cases v2 with
      | vlist vs => exact absurd h2 (hp vs)
      | nonList => simp [List.filterMap_cons, h1, h2]
    | none => simp [List.filterMap_cons, h1, h2]

/-- C4: on a mapping of unrecognized shape — no `readout`/`proto` list
and no usable `samples` list — normalization returns no data together
with a diagnostic naming the mapping's keys (and, being a total function,
does not raise). -/
theorem normalize_unrecognized_diagnostic (m : HMap)
    (hr : ∀ vs, m.get "readout" ≠ some (HVal.vlist vs))
    (hp : ∀ vs, m.get "proto" ≠ some (HVal.vlist vs))
    (hs : ∀ vs, m.get "samples" ≠ some (HVal.vlist vs)) :
    normalize_acc_history (AccHistory.mapping m) =
      (none, some ("unknown keys: " ++
        String.intercalate ", " (m.entries.map (fun e => e.1)))) := by
  have hrec := recognizedSeries_eq_nil m hr hp
  simp only [normalize_acc_history]
  rw [hrec]
  cases h3 : m.get "samples" with
  | some v =>
    cases v with
    | vlist vs => exact absurd h3 (hs vs)
    | nonList => simp [h3]
  | none => simp [h3]

/-- Witness for C4: a mapping with the single unrecognized key `foo`. -/
theorem normalize_unrecognized_diagnostic_witness :
    normalize_acc_history (AccHistory.mapping ⟨[("foo", HVal.nonList)]⟩) =
      (none, some "unknown keys: foo") := by
  have h := normalize_unrecognized_diagnostic ⟨[("foo", HVal.nonList)]⟩
    (fun vs h => Option.noConfusion h)
    (fun vs h => Option.noConfusion h)
    (fun vs h => Option.noConfusion h)
  rw [h]
  rfl

/-- C10: when `readout` or `proto` maps to a list, normalization returns
exactly the recognized series — an expression that never consults the
`samples` key — and no diagnostic, whatever `samples` holds. -/
theorem normalize_recognized_only (m : HMap)
    (h : (∃ vs, m.get "readout" = some (HVal.vlist vs)) ∨
         (∃ vs, m.get "proto" = some (HVal.vlist vs))) :
    normalize_acc_history (AccHistory.mapping m) =
      (some (recognizedSeries m), none) := by
  have hne : (recognizedSeries m).isEmpty = false := by
    unfold recognizedSeries
    rcases h with ⟨vs, hvs⟩ | ⟨vs, hvs⟩
    · simp [List.filterMap_cons, hvs]
    · cases h1 : m.get "readout" with
      | some v =>
        cases v with
        | vlist vs2 => simp [List.filterMap_cons, h1]
        | nonList => simp [List.filterMap_cons, h1, hvs]
      | none => simp [List.filterMap_cons, h1, hvs]
  simp only [normalize_acc_history]
  simp [hne]

/-- Witness for C10: `readout` recognized, a `samples` list present and
ignored. -/
theorem normalize_recognized_only_witness :
    normalize_acc_history (AccHistory.mapping
        ⟨[("readout", HVal.vlist [1]), ("samples", HVal.vlist [2, 3])]⟩) =
      (some [("readout", [1])], none) := by
  have h := normalize_recognized_only
    ⟨[("readout", HVal.vlist [1]), ("samples", HVal.vlist [2, 3])]⟩
    (Or.inl ⟨[1], rfl⟩)
  rw [h]
  rfl

/-- C5: smoothing a series of length less than 3 returns the input
unchanged, whatever the window. -/
theorem smooth_short_identity (values : List ℚ) (window : ℕ)
    (h : values.length < 3) : smooth values window = values := by
  unfold smooth
  rw [if_pos (Or.inl h)]

/-- Witness for C5 at the concrete input `[1, 2]` with the default window
25. -/
theorem smooth_short_identity_witness : smooth [1, 2] 25 = [1, 2] :=
  smooth_short_identity [1, 2] 25 (by decide)

/-- The `binned_stat` accumulation loop leaves a grid cell untouched when
no sample of the list falls into it. -/
theorem bsFold_untouched (xEdges yEdges : List ℚ) (bins yi xi : ℕ)
    (l : List (ℚ × ℚ × ℚ)) (g : ℕ → ℕ → ℚ) (c : ℕ → ℕ → ℕ)
    (h : ∀ s ∈ l, ¬(binIndex yEdges bins s.2.1 = yi ∧ binIndex xEdges bins s.1 = xi)) :
    (l.foldl (bsStep xEdges yEdges bins) (g, c)).1 yi xi = g yi xi ∧
    (l.foldl (bsStep xEdges yEdges bins) (g, c)).2 yi xi = c yi xi := by
  induction l generalizing g c with
  | nil => exact ⟨rfl, rfl⟩
  | cons s rest ih =>
    have hs := h s (List.mem_cons_self s rest)
    have hrest : ∀ t ∈ rest,
        ¬(binIndex yEdges bins t.2.1 = yi ∧ binIndex xEdges bins t.1 = xi) :=
      fun t ht => h t (List.mem_cons_of_mem s ht)
    rw [List.foldl_cons]
    have hstep : bsStep xEdges yEdges bins (g, c) s =
        (fun a b => if a = binIndex yEdges bins s.2.1 ∧ b = binIndex xEdges bins s.1
            then g a b + s.2.2 else g a b,
         fun a b => if a = binIndex yEdges bins s.2.1 ∧ b = binIndex xEdges bins s.1
            then c a b + 1 else c a b) := rfl
    rw [hstep]
    obtain ⟨h1, h2⟩ := ih _ _ hrest
    rw [h1, h2]
    have hcond : ¬(yi = binIndex yEdges bins s.2.1 ∧ xi = binIndex xEdges bins s.1) :=
      fun hc => hs ⟨hc.1.symm, hc.2.symm⟩
    exact ⟨if_neg hcond, if_neg hcond⟩

/-- C6: a grid cell of the binned-average heatmap into which no sample
falls equals 0 exactly (its sum is 0 and its denominator is clamped to
1). -/
theorem binned_stat_empty_cell_zero (x y values : List ℚ) (bins yi xi : ℕ)
    (h : ∀ s ∈ bsSamples x y values,
      ¬(binIndex (linspace (npMin y) (npMax y) bins) bins s.2.1 = yi ∧
        binIndex (linspace (npMin x) (npMax x) bins) bins s.1 = xi)) :
    (binned_stat x y values bins).1 yi xi = 0 := by
  obtain ⟨h1, h2⟩ := bsFold_untouched
    (linspace (npMin x) (npMax x) bins) (linspace (npMin y) (npMax y) bins)
    bins yi xi (bsSamples x y values) (fun _ _ => 0) (fun _ _ => 0) h
  simp only [binned_stat]
  rw [h1, h2]
  norm_num

/-- Witness for C6: two samples on the diagonal of a 2×2 grid; the
off-diagonal cell `(0, 1)` receives no sample and is exactly 0. -/
theorem binned_stat_empty_cell_zero_witness :
    (binned_stat [0, 1] [0, 1] [5, 7] 2).1 0 1 = 0 := by
  refine binned_stat_empty_cell_zero [0, 1] [0, 1] [5, 7] 2 0 1 ?_
  have hx : linspace (npMin [0, 1]) (npMax [0, 1]) 2 = [0, 1/2, 1] := by
    norm_num [linspace, npMin, npMax, List.range_succ]
  intro s hs
  have hsamp : bsSamples [0, 1] [0, 1] [5, 7] = [(0, 0, 5), (1, 1, 7)] := rfl
  rw [hsamp] at hs
  rw [hx]
  simp only [List.mem_cons, List.not_mem_nil, or_false] at hs
  rcases hs with h | h <;> subst h <;>
    norm_num [binIndex, searchsortedRight, List.countP, List.countP.go]

/-- C7: the array rendered from `similarityByOffset.mean` has the same
length as the input, carries NaN exactly at the null positions, and
carries each non-null value unchanged at its own position. -/
theorem renderSimilarity_null_to_nan (mean : List (Option ℚ)) (i : ℕ) :
    (renderSimilarity mean).length = mean.length ∧
    (mean[i]? = some none ↔ (renderSimilarity mean)[i]? = some PFloat.nan) ∧
    (∀ q, mean[i]? = some (some q) ↔ (renderSimilarity mean)[i]? = some (PFloat.val q)) := by
  refine ⟨by simp [renderSimilarity], ?_, ?_⟩
  · rw [renderSimilarity, List.getElem?_map]
    cases h : mean[i]? with
    | none => simp
    | some v => cases v <;> simp
  · intro q
    rw [renderSimilarity, List.getElem?_map]
    cases h : mean[i]? with
    | none => simp
    | some v => cases v <;> simp

/-- Witness for C7 at the spec's example `[1.0, 0.8, null, 0.6]`,
position 2 (the null). -/
theorem renderSimilarity_null_to_nan_witness :
    (renderSimilarity [some 1, some (4/5), none, some (3/5)])[2]? = some PFloat.nan :=
  (renderSimilarity_null_to_nan [some 1, some (4/5), none, some (3/5)] 2).2.1.mp rfl

/-- C8: `_plot_history_series` draws a smoothed overlay for a series if
and only if the series has at least 10 points, and every smoothed overlay
it draws is the boxcar smoothing with window `min 25 (max 3 (n / 8))`
(`n` the series length, integer division). -/
theorem smoothed_overlay_policy (label : String) (values : List ℚ) :
    ((∃ l ys, Curve.smoothedLine l ys ∈ plotSeriesCurves label values) ↔
      10 ≤ values.length) ∧
    (∀ l ys, Curve.smoothedLine l ys ∈ plotSeriesCurves label values →
      l = label ++ " (smoothed)" ∧
      ys = smooth values (min 25 (max 3 (values.length / 8)))) := by
  unfold plotSeriesCurves
  by_cases hemp : values.isEmpty
  · have h0 : values.length = 0 := by simpa [List.isEmpty_iff_length_eq_zero] using hemp
    simp [hemp, h0]
  · by_cases hlen : 10 ≤ values.length
    · simp only [hemp, if_false, if_pos hlen, Bool.false_eq_true]
      constructor
      · exact ⟨fun _ => hlen, fun _ =>
          ⟨label ++ " (smoothed)", smooth values (min 25 (max 3 (values.length / 8))),
            by simp⟩⟩
      · intro l ys hmem
        simp only [List.mem_cons, List.mem_singleton] at hmem
        rcases hmem with h | h | h
        · exact absurd h (by simp)
        · exact ⟨(Curve.smoothedLine.injEq ..).mp h |>.1, (Curve.smoothedLine.injEq ..).mp h |>.2⟩
        · exact absurd h (by simp at h)
    · simp only [hemp, if_false, if_neg hlen, Bool.false_eq_true]
      constructor
      · constructor
        · rintro ⟨l, ys, hmem⟩
          simp at hmem
        · intro h; exact absurd h hlen
      · intro l ys hmem
        simp at hmem

/-- Witness for C8: a 10-point series gets a smoothed overlay (window
`min 25 (max 3 (10 / 8)) = 3`). -/
theorem smoothed_overlay_policy_witness :
    ∃ l ys, Curve.smoothedLine l ys ∈
      plotSeriesCurves "readout" [1, 2, 3, 4, 5, 6, 7, 8, 9, 10] :=
  (smoothed_overlay_policy "readout" [1, 2, 3, 4, 5, 6, 7, 8, 9, 10]).1.mpr (by decide)

/-- C9: when fewer labels than sets were given, the set assembled at
index `idx` carries the label derived from the parent directory of its
summary path (or, failing that, its trials path). -/
theorem mainSet_missing_label (summaries trials labels : List String) (idx : ℕ)
    (hlab : labels.length ≤ idx)
    (hsome : summaries.get? idx ≠ none ∨ trials.get? idx ≠ none) :
    mainSetFor summaries trials labels idx =
      some (derive_label (pyOr (summaries.get? idx) (trials.get? idx))
              ("set-" ++ toString (idx + 1)),
            summaries.get? idx, trials.get? idx) ∧
    (derive_label (pyOr (summaries.get? idx) (trials.get? idx))
       ("set-" ++ toString (idx + 1)),
     summaries.get? idx, trials.get? idx) ∈ assembleSets summaries trials labels := by
  have hnone : labels.get? idx = none := List.get?_eq_none.mpr hlab
  have hmain : mainSetFor summaries trials labels idx =
      some (derive_label (pyOr (summaries.get? idx) (trials.get? idx))
              ("set-" ++ toString (idx + 1)),
            summaries.get? idx, trials.get? idx) := by
    simp only [mainSetFor, hnone]
    rw [if_neg]
    rintro ⟨h1, h2⟩
    rcases hsome with h | h
    · exact h h1
    · exact h h2
  refine ⟨hmain, ?_⟩
  have hidx : idx < max (max summaries.length trials.length) (max labels.length 1) := by
    rcases hsome with h | h
    · have : ¬summaries.length ≤ idx := fun hle => h (List.get?_eq_none.mpr hle)
      omega
    · have : ¬trials.length ≤ idx := fun hle => h (List.get?_eq_none.mpr hle)
      omega
  exact List.mem_filterMap.mpr ⟨idx, List.mem_range.mpr hidx, hmain⟩

/-- Witness for C9: one summary path, no labels; the label comes from the
summary path's parent directory `b`. -/
theorem mainSet_missing_label_witness :
    mainSetFor ["a/b/s.json"] [] [] 0 = some ("b", some "a/b/s.json", none) := by
  have h := mainSet_missing_label ["a/b/s.json"] [] [] 0 (by decide)
    (Or.inl (by decide))
  rw [h.1]
  rfl

/-- Pointwise form of the weight matrix: preference lookup, distance
classification, then the noisy attractor weights. -/
theorem generate_topology_apply (topology_type : String) (n_neurons n_digits : ℕ)
    (noise : ℕ → ℕ → ℚ) (i j : ℕ) :
    (generate_topology topology_type n_neurons n_digits noise).1 i j =
      (if digitDist topology_type n_digits
          ((neuron_preferences n_neurons n_digits).getD i 0)
          ((neuron_preferences n_neurons n_digits).getD j 0) = 0
       then 1 + noise i j
       else if digitDist topology_type n_digits
          ((neuron_preferences n_neurons n_digits).getD i 0)
          ((neuron_preferences n_neurons n_digits).getD j 0) = 1
       then 1/2 + noise i j
       else 0) := rfl

/-- Both digit distances are symmetric in their two arguments. -/
theorem digitDist_comm (topology_type : String) (n_digits di dj : ℕ) :
    digitDist topology_type n_digits di dj = digitDist topology_type n_digits dj di := by
  unfold digitDist
  have habs : ((di : ℤ) - (dj : ℤ)).natAbs = ((dj : ℤ) - (di : ℤ)).natAbs := by omega
  rw [habs]

/-- The weight of a pair is determined, within the noise bound, by its
digit-distance class: near 1 at distance 0, near 1/2 at distance 1, and
exactly 0 beyond. -/
theorem generate_topology_classes (topology_type : String) (n_neurons n_digits : ℕ)
    (noise : ℕ → ℕ → ℚ) (eps : ℚ) (hn : ∀ a b, |noise a b| ≤ eps) (i j : ℕ) :
    (digitDist topology_type n_digits
        ((neuron_preferences n_neurons n_digits).getD i 0)
        ((neuron_preferences n_neurons n_digits).getD j 0) = 0 →
      |(generate_topology topology_type n_neurons n_digits noise).1 i j - 1| ≤ eps) ∧
    (digitDist topology_type n_digits
        ((neuron_preferences n_neurons n_digits).getD i 0)
        ((neuron_preferences n_neurons n_digits).getD j 0) = 1 →
      |(generate_topology topology_type n_neurons n_digits noise).1 i j - 1/2| ≤ eps) ∧
    (2 ≤ digitDist topology_type n_digits
        ((neuron_preferences n_neurons n_digits).getD i 0)
        ((neuron_preferences n_neurons n_digits).getD j 0) →
      (generate_topology topology_type n_neurons n_digits noise).1 i j = 0) := by
  refine ⟨fun h => ?_, fun h => ?_, fun h => ?_⟩
  · rw [generate_topology_apply, if_pos h]
    simpa using hn i j
  · rw [generate_topology_apply, if_neg (by omega), if_pos h]
    simpa using hn i j
  · rw [generate_topology_apply, if_neg (by omega), if_neg (by omega)]

/-- The weight matrix is symmetric up to twice the noise bound. -/
theorem generate_topology_symm_within_noise (topology_type : String)
    (n_neurons n_digits : ℕ) (noise : ℕ → ℕ → ℚ) (eps : ℚ)
    (hn : ∀ a b, |noise a b| ≤ eps) (i j : ℕ) :
    |(generate_topology topology_type n_neurons n_digits noise).1 i j -
      (generate_topology topology_type n_neurons n_digits noise).1 j i| ≤ eps + eps := by
  have heps : (0 : ℚ) ≤ eps := le_trans (abs_nonneg _) (hn 0 0)
  rw [generate_topology_apply, generate_topology_apply,
    digitDist_comm topology_type n_digits
      ((neuron_preferences n_neurons n_digits).getD j 0)
      ((neuron_preferences n_neurons n_digits).getD i 0)]
  by_cases h0 : digitDist topology_type n_digits
      ((neuron_preferences n_neurons n_digits).getD i 0)
      ((neuron_preferences n_neurons n_digits).getD j 0) = 0
  · rw [if_pos h0, if_pos h0]
    have : 1 + noise i j - (1 + noise j i) = noise i j - noise j i := by ring
    rw [this]
    exact (abs_sub _ _).trans (add_le_add (hn i j) (hn j i))
  · by_cases h1 : digitDist topology_type n_digits
        ((neuron_preferences n_neurons n_digits).getD i 0)
        ((neuron_preferences n_neurons n_digits).getD j 0) = 1
    · rw [if_neg h0, if_neg h0, if_pos h1, if_pos h1]
      have : 1/2 + noise i j - (1/2 + noise j i) = noise i j - noise j i := by ring
      rw [this]
      exact (abs_sub _ _).trans (add_le_add (hn i j) (hn j i))
    · rw [if_neg h0, if_neg h0, if_neg h1, if_neg h1]
      simpa using add_nonneg heps heps

/-- C1: for the same neuron/digit counts, the Ring matrix follows the
modular (wrap-around) digit distance and the Snake matrix the absolute
linear digit distance; both distances are symmetric, each matrix is
symmetric within the additive noise, pairs at distance 0 weigh within the
noise of 1, pairs at distance 1 within the noise of 1/2, and all other
pairs weigh exactly 0. -/
theorem generate_topology_spec (n_neurons n_digits : ℕ)
    (noiseR noiseS : ℕ → ℕ → ℚ) (eps : ℚ) (i j di dj : ℕ)
    (hdvd : n_digits ∣ n_neurons) (hpos : 0 < n_digits)
    (hi : i < n_neurons) (hj : j < n_neurons)
    (hnR : ∀ a b, |noiseR a b| ≤ eps) (hnS : ∀ a b, |noiseS a b| ≤ eps)
    (hdi : di = (neuron_preferences n_neurons n_digits).getD i 0)
    (hdj : dj = (neuron_preferences n_neurons n_digits).getD j 0) :
    (digitDist "Ring" n_digits di dj = digitDist "Ring" n_digits dj di) ∧
    (digitDist "Snake" n_digits di dj = digitDist "Snake" n_digits dj di) ∧
    (digitDist "Ring" n_digits di dj = 0 →
      |(generate_topology "Ring" n_neurons n_digits noiseR).1 i j - 1| ≤ eps) ∧
    (digitDist "Ring" n_digits di dj = 1 →
      |(generate_topology "Ring" n_neurons n_digits noiseR).1 i j - 1/2| ≤ eps) ∧
    (2 ≤ digitDist "Ring" n_digits di dj →
      (generate_topology "Ring" n_neurons n_digits noiseR).1 i j = 0) ∧
    (digitDist "Snake" n_digits di dj = 0 →
      |(generate_topology "Snake" n_neurons n_digits noiseS).1 i j - 1| ≤ eps) ∧
    (digitDist "Snake" n_digits di dj = 1 →
      |(generate_topology "Snake" n_neurons n_digits noiseS).1 i j - 1/2| ≤ eps) ∧
    (2 ≤ digitDist "Snake" n_digits di dj →
      (generate_topology "Snake" n_neurons n_digits noiseS).1 i j = 0) ∧
    |(generate_topology "Ring" n_neurons n_digits noiseR).1 i j -
      (generate_topology "Ring" n_neurons n_digits noiseR).1 j i| ≤ eps + eps ∧
    |(generate_topology "Snake" n_neurons n_digits noiseS).1 i j -
      (generate_topology "Snake" n_neurons n_digits noiseS).1 j i| ≤ eps + eps := by
  subst hdi hdj
  obtain ⟨hR0, hR1, hR2⟩ := generate_topology_classes "Ring" n_neurons n_digits noiseR eps hnR i j
  obtain ⟨hS0, hS1, hS2⟩ := generate_topology_classes "Snake" n_neurons n_digits noiseS eps hnS i j
  exact ⟨digitDist_comm _ _ _ _, digitDist_comm _ _ _ _, hR0, hR1, hR2, hS0, hS1, hS2,
    generate_topology_symm_within_noise "Ring" n_neurons n_digits noiseR eps hnR i j,
    generate_topology_symm_within_noise "Snake" n_neurons n_digits noiseS eps hnS i j⟩

/-- Witness for C1: 4 neurons over 2 digits, constant noise 1/100;
neurons 0 and 1 prefer the same digit, so their Ring weight is within
1/100 of 1. -/
theorem generate_topology_spec_witness :
    |(generate_topology "Ring" 4 2 (fun _ _ => 1/100)).1 0 1 - 1| ≤ 1/100 :=
  (generate_topology_spec 4 2 (fun _ _ => 1/100) (fun _ _ => 1/100) (1/100) 0 1 0 0
    ⟨2, rfl⟩ (by decide) (by decide) (by decide)
    (fun _ _ => le_of_eq (abs_of_pos (by norm_num)))
    (fun _ _ => le_of_eq (abs_of_pos (by norm_num))) rfl rfl).2.2.1 rfl

end CanPaper
